import Mathlib

/-!
Latest-frame relay of `viewer/viewer.cpp`.

A shallow embedding of `Widget::work` (the capture thread) and
`Widget::paintEvent` (the paint callback) of `src/viewer/viewer.cpp`.

* C `int` values (`xres`, `yres`, `line_stride_in_bytes`) are `Int`;
  a signed multiplication that leaves the 32-bit range is undefined
  behaviour and is modelled as a failure (`none`).
* Memory is a list of cells.  A cell of a `QImage` buffer is `none` while it
  is uninitialised (fresh from the allocator) and `some b` once a byte was
  written.  The buffer handed over by the SDK holds plain bytes.
* An out-of-bounds access, or an access through a null pointer, is `none`.
* The NDI SDK and Qt are external: what they return is an input of the model.
  In particular whether the `QImage` constructor obtains its memory is an
  input (`alloc`): when it does not, Qt returns a null image.
-/

namespace Viewer

/-! ## Data model -/

/-- The fields of `NDIlib_video_frame_v2_t` that `Widget::work` reads. -/
structure Frame where
  xres : Int
  yres : Int
  line_stride_in_bytes : Int
  p_data : List Nat
  deriving DecidableEq

/-- The private data of a non-null `QImage` in `Format_RGBA8888`. -/
structure QImageData where
  width : Nat
  height : Nat
  bytes_per_line : Nat
  data : List (Option Nat)
  deriving DecidableEq

/-- A `QImage`: a (possibly absent) data block, as in Qt. -/
structure QImage where
  d : Option QImageData
  deriving DecidableEq

namespace QImage

/-- The default-constructed `QImage()`: a null image. -/
def null : QImage := ⟨none⟩

/-- Qt `QImage::isNull()`. -/
def isNull (img : QImage) : Bool := img.d.isNone

/-- Qt `QImage::width()`: 0 for a null image. -/
def width (img : QImage) : Int :=
  match img.d with
  | none => 0
  | some x => (x.width : Int)

/-- Qt `QImage::height()`: 0 for a null image. -/
def height (img : QImage) : Int :=
  match img.d with
  | none => 0
  | some x => (x.height : Int)

/-- Qt `QImage(width, height, QImage::Format_RGBA8888)`: a null image when a
dimension is not positive or when the memory cannot be allocated
(`alloc = false`), otherwise a buffer of `height` scan lines of `4 * width`
bytes each whose contents are uninitialised. -/
def create (alloc : Bool) (w h : Int) : QImage :=
  if w ≤ 0 ∨ h ≤ 0 ∨ alloc = false then null
  else ⟨some ⟨w.toNat, h.toNat, 4 * w.toNat,
    List.replicate (4 * w.toNat * h.toNat) none⟩⟩

/-- Qt `QImage::scanLine(y)`: the offset of row `y` inside the buffer; the null
pointer (`none`) for a null image, and no valid pointer outside the rows. -/
def scanLine (img : QImage) (y : Int) : Option Nat :=
  match img.d with
  | none => none
  | some x => if 0 ≤ y ∧ y < (x.height : Int) then some (y.toNat * x.bytes_per_line) else none

/-- The byte stored at offset `i` of row `y`, when that cell exists and has
been written. -/
def byteAt (img : QImage) (y i : Nat) : Option Nat :=
  match img.d with
  | none => none
  | some x => (x.data[y * x.bytes_per_line + i]?).join

end QImage

/-- The byte of the frame's pixel buffer at offset `i` of source row `y`. -/
def Frame.byteAt (f : Frame) (y i : Nat) : Option Nat :=
  if 0 ≤ (y : Int) * f.line_stride_in_bytes + i then
    f.p_data[((y : Int) * f.line_stride_in_bytes + i).toNat]?
  else none

/-! ## Machine arithmetic and `memcpy` -/

/-- Multiplication of two C `int`s; `none` when the result is not an `int`. -/
def mulInt (a b : Int) : Option Int :=
  if -(2 ^ 31 : Int) ≤ a * b ∧ a * b < 2 ^ 31 then some (a * b) else none

/-- Conversion of an `int` to `size_t` (64 bits). -/
def toSizeT (i : Int) : Nat := (i % (2 ^ 64 : Int)).toNat

/-- Stores `n` bytes read at offset `source` of `src` at offset `dest` of the
buffer `dst`: `std::memcpy`.  Both ranges must lie inside their buffers. -/
def memcpy (dst : List (Option Nat)) (dest : Nat) (src : List Nat) (source : Int) (n : Nat) :
    Option (List (Option Nat)) :=
  if 0 ≤ source ∧ source.toNat + n ≤ src.length ∧ dest + n ≤ dst.length then
    some (dst.take dest ++ ((src.drop source.toNat).take n).map some ++ dst.drop (dest + n))
  else none

/-! ## `Widget::work`, video branch (lines 123-139) -/

/-- Lines 125-128: replace `d_image` when the frame has other dimensions.
`alloc` is whether the constructor, if it is called, obtains its memory; the
code does not look at the result. -/
def reallocIfNeeded (alloc : Bool) (f : Frame) (d_image : QImage) : QImage :=
  if f.xres ≠ d_image.width ∨ f.yres ≠ d_image.height then QImage.create alloc f.xres f.yres
  else d_image

/-- Lines 134-135, one pass of the row loop:
`dest = d_image.scanLine(y); memcpy(dest, source, xres * 4)`. -/
def copyRow (f : Frame) (y : Int) (source : Int) (d_image : QImage) : Option QImage :=
  match d_image.d, d_image.scanLine y, mulInt f.xres 4 with
  | some x, some dest, some n =>
    match memcpy x.data dest f.p_data source (toSizeT n) with
    | some data => some ⟨some { x with data := data }⟩
    | none => none
  | _, _, _ => none

/-- Lines 132-137: `for (int y = 0; y < yres; ++y)`, entered at row `y` with
`todo` rows left (`todo = yres - y`); `source` advances by the line stride. -/
def copyRows (f : Frame) : Nat → Int → Int → QImage → Option QImage
  | 0, _, _, d_image => some d_image
  | todo + 1, y, source, d_image =>
    match copyRow f y source d_image with
    | none => none
    | some d_image' => copyRows f todo (y + 1) (source + f.line_stride_in_bytes) d_image'

/-- Lines 123-139: the publish of one video frame into `d_image`
(run with `d_mutex` held). -/
def publish (alloc : Bool) (f : Frame) (d_image : QImage) : Option QImage :=
  copyRows f f.yres.toNat 0 0 (reallocIfNeeded alloc f d_image)

/-! ## The contract of publish and the image of a frame -/

/-- The fields of the frame are C `int`s. -/
def Frame.IsInt (f : Frame) : Prop :=
  (-(2 ^ 31 : Int) ≤ f.xres ∧ f.xres < 2 ^ 31) ∧
  (-(2 ^ 31 : Int) ≤ f.yres ∧ f.yres < 2 ^ 31) ∧
  (-(2 ^ 31 : Int) ≤ f.line_stride_in_bytes ∧ f.line_stride_in_bytes < 2 ^ 31)

instance (f : Frame) : Decidable f.IsInt := by
  unfold Frame.IsInt; infer_instance

/-- The contract of publish: non-zero width and height, a row stride of at
least `width * 4` bytes, a pixel buffer of at least `height * row_stride`
bytes. -/
def Frame.Valid (f : Frame) : Prop :=
  0 < f.xres ∧ 0 < f.yres ∧ f.xres * 4 ≤ f.line_stride_in_bytes ∧
  f.yres * f.line_stride_in_bytes ≤ (f.p_data.length : Int)

instance (f : Frame) : Decidable f.Valid := by
  unfold Frame.Valid; infer_instance

/-- The images `d_image` can hold: null, or `Format_RGBA8888` data of positive
dimensions with `4 * width` bytes per line and `height` lines. -/
def QImage.WF (img : QImage) : Prop :=
  match img.d with
  | none => True
  | some x => 0 < x.width ∧ 0 < x.height ∧ x.bytes_per_line = 4 * x.width ∧
      x.data.length = x.bytes_per_line * x.height

instance (img : QImage) : Decidable img.WF := by
  unfold QImage.WF; split <;> infer_instance

/-- The `4 * width` bytes of source row `y`, as written cells. -/
def rowBytes (f : Frame) (y : Nat) : List (Option Nat) :=
  ((f.p_data.drop ((y : Int) * f.line_stride_in_bytes).toNat).take (4 * f.xres.toNat)).map some

/-- The first `n` rows of the frame, tightly packed. -/
def rowsUpTo (f : Frame) : Nat → List (Option Nat)
  | 0 => []
  | n + 1 => rowsUpTo f n ++ rowBytes f n

/-- The image that holds exactly the pixels of `f`: its dimensions, and its
rows tightly packed. -/
def frameImage (f : Frame) : QImage :=
  ⟨some ⟨f.xres.toNat, f.yres.toNat, 4 * f.xres.toNat, rowsUpTo f f.yres.toNat⟩⟩

/-- State of the row loop before row `y`: the buffer has the frame's
dimensions and its first `y` rows are those of the frame. -/
def RowInv (f : Frame) (y : Nat) (img : QImage) : Prop :=
  ∃ data, img = ⟨some ⟨f.xres.toNat, f.yres.toNat, 4 * f.xres.toNat, data⟩⟩ ∧
    data.length = 4 * f.xres.toNat * f.yres.toNat ∧
    data.take (4 * f.xres.toNat * y) = rowsUpTo f y

/-! ## `Widget::work`, the capture loop (lines 104-169) -/

/-- What `NDIlib_recv_capture_v2` hands back: the frame type it returns and
the fields of the descriptor the matching branch reads. -/
inductive Event
  | noData
  | video (f : Frame)
  | audio (no_samples : Int)
  | metadata
  | statusChange
  | unknown
  deriving DecidableEq

/-- The calls into the C library, the SDK and Qt that `work` makes, in order. -/
inductive Effect
  | printCannotRun
  | printNoData
  | printVideo (xres yres : Int)
  | printAudio (no_samples : Int)
  | printMetadata
  | printStatusChanged
  | freeVideo
  | freeAudio
  | freeMetadata
  | update
  | findDestroy
  | setTally
  | sendMetadata
  | recvDestroy
  | ndiDestroy
  deriving DecidableEq

/-- Whether the event is of type `NDIlib_frame_type_video`. -/
def Event.isVideo : Event → Bool
  | Event.video _ => true
  | _ => false

/-- The `printf` calls among the effects. -/
def Effect.isPrint : Effect → Bool
  | printCannotRun => true
  | printNoData => true
  | printVideo _ _ => true
  | printAudio _ => true
  | printMetadata => true
  | printStatusChanged => true
  | _ => false

/-- Lines 111-168: the `switch` on the captured frame type.  The result is the
new `d_image` (`none` when the copy leaves a buffer or goes through a null
pointer) and the calls made. -/
def handle (alloc : Bool) (e : Event) (d_image : QImage) : Option QImage × List Effect :=
  match e with
  | Event.noData => (some d_image, [Effect.printNoData])
  | Event.video f =>
    match publish alloc f d_image with
    | some d_image' =>
      (some d_image', [Effect.printVideo f.xres f.yres, Effect.freeVideo, Effect.update])
    | none => (none, [Effect.printVideo f.xres f.yres])
  | Event.audio n => (some d_image, [Effect.printAudio n, Effect.freeAudio])
  | Event.metadata => (some d_image, [Effect.printMetadata, Effect.freeMetadata])
  | Event.statusChange => (some d_image, [Effect.printStatusChanged])
  | Event.unknown => (some d_image, [])

/-- How `work` ended. -/
inductive Exit
  | initFailed
  | noFinder
  | noSources
  | sourceOutOfBounds
  | noReceiver
  | crashed
  | finished
  deriving DecidableEq

/-- The state `work` leaves behind when it returns. -/
structure Outcome where
  exit : Exit
  d_image : QImage
  effects : List Effect
  deriving DecidableEq

/-- Lines 104-175: `while (!d_stop) { switch (capture(..., 500)) ... }` and the
teardown after it.  `d_stop k` is the value the `k`-th test of the loop reads,
`recv_capture k` what the `k`-th poll returns, `alloc k` whether a `QImage`
constructed in the `k`-th pass obtains its memory.  `none`: still running
after `fuel` tests. -/
def captureLoop (d_stop : Nat → Bool) (recv_capture : Nat → Event) (alloc : Nat → Bool) :
    Nat → Nat → QImage → List Effect → Option Outcome
  | 0, _, _, _ => none
  | fuel + 1, k, d_image, effects =>
    if d_stop k then
      some ⟨Exit.finished, d_image, effects ++ [Effect.recvDestroy, Effect.ndiDestroy]⟩
    else
      match handle (alloc k) (recv_capture k) d_image with
      | (some d_image', es) =>
        captureLoop d_stop recv_capture alloc fuel (k + 1) d_image' (effects ++ es)
      | (none, es) => some ⟨Exit.crashed, d_image, effects ++ es⟩

/-! ## `Widget::work`, start-up (lines 53-102) -/

/-- An entry of the finder's source list (`NDIlib_source_t`). -/
abbrev Source := String

/-- What the SDK and the other threads answer to `work`. -/
structure Env where
  -- the result of the library start-up call `NDIlib_...()` of line 53
  lib_init : Bool
  -- whether `NDIlib_find_create_v2` returns a finder
  find_create : Bool
  -- the value of `exit_loop` read by the `k`-th test of the discovery loop
  exit_loop : Nat → Bool
  -- the `k`-th answer of `NDIlib_find_get_current_sources`: the list pointer
  -- (`none` is `NULL`) and the count written to `no_sources`
  current_sources : Nat → Option (List Source) × Nat
  -- whether `NDIlib_recv_create_v3` returns a receiver
  recv_create : Bool
  -- the value of `d_stop` read by the `k`-th test of the capture loop
  d_stop : Nat → Bool
  -- the answer of the `k`-th `NDIlib_recv_capture_v2`
  recv_capture : Nat → Event
  -- whether a `QImage` constructed in the `k`-th pass of the capture loop
  -- obtains its memory
  alloc : Nat → Bool

/-- Lines 66-72: `while (!exit_loop && !no_sources) { wait; p_sources =
get_current_sources(&no_sources); }`, entered at its `k`-th test with the
current `(p_sources, no_sources)`.  `none`: still looping after `fuel` tests. -/
def discover (exit_loop : Nat → Bool) (current_sources : Nat → Option (List Source) × Nat) :
    Nat → Nat → Option (List Source) × Nat → Option (Option (List Source) × Nat)
  | 0, _, _ => none
  | fuel + 1, k, (p_sources, no_sources) =>
    if !exit_loop k && no_sources == 0 then
      discover exit_loop current_sources fuel (k + 1) (current_sources k)
    else some (p_sources, no_sources)

/-- Lines 50-176: `Widget::work`, started on the given `d_image`.  Each of the
two loops may run `fuel` tests; `none` means `work` has not returned by then. -/
def work (env : Env) (fuel : Nat) (d_image : QImage) : Option Outcome :=
  if !env.lib_init then some ⟨Exit.initFailed, d_image, [Effect.printCannotRun]⟩
  else if !env.find_create then some ⟨Exit.noFinder, d_image, []⟩
  else
    match discover env.exit_loop env.current_sources fuel 0 (none, 0) with
    | none => none
    | some (none, _) => some ⟨Exit.noSources, d_image, []⟩
    | some (some p_sources, _) =>
      match p_sources[0]? with
      | none => some ⟨Exit.sourceOutOfBounds, d_image, []⟩
      | some _ =>
        if !env.recv_create then some ⟨Exit.noReceiver, d_image, []⟩
        else
          captureLoop env.d_stop env.recv_capture env.alloc fuel 0 d_image
            [Effect.findDestroy, Effect.setTally, Effect.sendMetadata]

/-! ## `Widget::paintEvent` (lines 178-195) -/

/-- The widget's `size()`. -/
abbrev QSize := Int × Int

/-- Lines 178-195.  `scaled` stands for Qt's
`QImage::scaled(size, Qt::KeepAspectRatio)`.  The result is `d_image` after the
call and the image handed to `painter.drawImage` (`none`: nothing is drawn). -/
def paintEvent (scaled : QImage → QSize → QImage) (size : QSize) (d_image : QImage) :
    QImage × Option QImage :=
  if d_image.isNull then (d_image, none)
  else (d_image, some (scaled d_image size))

/-- The stop flag reads `false` in the first `n` tests and `true` from then on. -/
def stopAfter (n : Nat) : Nat → Bool := fun k => decide (n ≤ k)

/-- The polls return the events of the list, in order. -/
def pollFrom (events : List Event) : Nat → Event := fun k => events.getD k Event.noData

/-- The frames of the video events of a sequence, in arrival order, each with
the allocator's answer for the pass of the loop that handles it; the first
event of the list is handled in pass `k`. -/
def videoFrames (alloc : Nat → Bool) : Nat → List Event → List (Bool × Frame)
  | _, [] => []
  | k, Event.video f :: es => (alloc k, f) :: videoFrames alloc (k + 1) es
  | k, _ :: es => videoFrames alloc (k + 1) es

/-- Publishes the frames one after the other, each with the allocator's answer
for that publish. -/
def publishAll : List (Bool × Frame) → QImage → Option QImage
  | [], d_image => some d_image
  | (alloc, f) :: fs, d_image =>
    match publish alloc f d_image with
    | some d_image' => publishAll fs d_image'
    | none => none

/-- Every allocation the publishes of the list make succeeds: a publish whose
frame has other dimensions than the `w` x `h` image in the slot constructs a
new image and needs `alloc = true`. -/
def AllocsOk : Int → Int → List (Bool × Frame) → Prop
  | _, _, [] => True
  | w, h, (alloc, f) :: fs =>
    (alloc = true ∨ (f.xres = w ∧ f.yres = h)) ∧ AllocsOk f.xres f.yres fs

/-- Decision procedure for `AllocsOk`. -/
def decAllocsOk : ∀ (w h : Int) (fs : List (Bool × Frame)), Decidable (AllocsOk w h fs)
  | _, _, [] => isTrue trivial
  | w, h, (alloc, f) :: fs =>
    have : Decidable (AllocsOk f.xres f.yres fs) := decAllocsOk f.xres f.yres fs
    by unfold AllocsOk; infer_instance

instance (w h : Int) (fs : List (Bool × Frame)) : Decidable (AllocsOk w h fs) :=
  decAllocsOk w h fs

/-- A 1x2 frame with a stride of 6 bytes (2 bytes of padding per row). -/
def frameA : Frame := ⟨1, 2, 6, [1, 2, 3, 4, 0, 0, 5, 6, 7, 8, 0, 0]⟩

/-- A 2x1 frame, tightly packed. -/
def frameB : Frame := ⟨2, 1, 8, [11, 12, 13, 14, 15, 16, 17, 18]⟩

/-! ## The capture loop against the destructor, step by step -/

/-- Where the capture thread stands in `while (!d_stop) { switch (capture) ... }`. -/
inductive LoopPc
  | test
  | poll
  | dispatch (e : Event)
  | returned
  | crashed
  deriving DecidableEq

/-- The capture loop and the flag it shares with the destructor. -/
structure LoopState where
  pc : LoopPc
  d_stop : Bool
  d_image : QImage
  deriving DecidableEq

/-- Who moves next: the capture thread (with the event its poll returns, used
when the step is the return of the poll, and the allocator's answer, used when
the step constructs a `QImage`), or `~Widget` at line 45. -/
inductive LoopMove
  | worker (e : Event) (alloc : Bool)
  | destructor
  deriving DecidableEq

/-- What a step did. -/
inductive LoopObs
  | tested (stop : Bool)
  | polled
  | wroteImage
  | handledOther
  | setStop
  | idle
  deriving DecidableEq

/-- One step.  The capture thread tests `d_stop` (line 104), then waits in the
poll (line 111), then runs the branch of the returned event (lines 112-168);
the video branch is the one that writes `d_image`.  The destructor sets
`d_stop` (line 45). -/
def loopStep (s : LoopState) : LoopMove → LoopState × LoopObs
  | LoopMove.destructor => ({ s with d_stop := true }, LoopObs.setStop)
  | LoopMove.worker e alloc =>
    match s.pc with
    | LoopPc.test =>
      if s.d_stop then ({ s with pc := LoopPc.returned }, LoopObs.tested true)
      else ({ s with pc := LoopPc.poll }, LoopObs.tested false)
    | LoopPc.poll => ({ s with pc := LoopPc.dispatch e }, LoopObs.polled)
    | LoopPc.dispatch ev =>
      match handle alloc ev s.d_image with
      | (some d_image', _) =>
        ({ s with pc := LoopPc.test, d_image := d_image' },
          if ev.isVideo then LoopObs.wroteImage else LoopObs.handledOther)
      | (none, _) =>
        ({ s with pc := LoopPc.crashed },
          if ev.isVideo then LoopObs.wroteImage else LoopObs.handledOther)
    | LoopPc.returned => (s, LoopObs.idle)
    | LoopPc.crashed => (s, LoopObs.idle)

/-- The state after a schedule of moves. -/
def loopRun : LoopState → List LoopMove → LoopState
  | s, [] => s
  | s, m :: ms => loopRun (loopStep s m).1 ms

/-- What the steps of a schedule did, in order. -/
def loopTrace : LoopState → List LoopMove → List LoopObs
  | _, [] => []
  | s, m :: ms => (loopStep s m).2 :: loopTrace (loopStep s m).1 ms

/-- The capture thread enters its loop, the flag is not set, the slot is any
image. -/
def loopStart (d_image : QImage) : LoopState := ⟨LoopPc.test, false, d_image⟩

/-- The number of steps that write the stored image after the first step that
sets the stop flag. -/
def writesAfterStop : List LoopObs → Nat
  | [] => 0
  | LoopObs.setStop :: rest => rest.count LoopObs.wroteImage
  | _ :: rest => writesAfterStop rest

/-- The number of steps that write the stored image after the first loop test
that reads the stop flag as set. -/
def writesAfterSeenStop : List LoopObs → Nat
  | [] => 0
  | LoopObs.tested true :: rest => rest.count LoopObs.wroteImage
  | _ :: rest => writesAfterSeenStop rest

/-- How many more writes of the stored image the capture thread can still make
once `d_stop` is set, by the place it stands at. -/
def writesLeft : LoopPc → Nat
  | LoopPc.test => 0
  | LoopPc.poll => 1
  | LoopPc.dispatch e => if e.isVideo then 1 else 0
  | LoopPc.returned => 0
  | LoopPc.crashed => 0

/-- The flag is set while the capture thread waits in the poll, and the poll
then returns a video frame. -/
def stopDuringPoll : List LoopMove :=
  [LoopMove.worker Event.noData true, LoopMove.destructor,
    LoopMove.worker (Event.video frameA) true, LoopMove.worker Event.noData true]

/-! ## Publish against snapshot, step by step under `d_mutex` -/

/-- The two threads that touch `d_image`. -/
inductive Thread
  | capture
  | paint
  deriving DecidableEq

/-- Where the capture thread stands: in the poll (line 111), before
`d_mutex.lock()` (line 123), before the dimension check (lines 125-128), at
the test of the row loop with its `y` and `source` (lines 132-137), or before
`d_mutex.unlock()` (line 139). -/
inductive CapPc
  | poll
  | lock (f : Frame)
  | check (f : Frame)
  | row (f : Frame) (y : Int) (source : Int)
  | unlock (f : Frame)
  | crashed
  deriving DecidableEq

/-- Where the paint thread stands: outside `paintEvent`, before
`d_mutex.lock()` (line 182), before the null check (line 184), before the
unlock of the early return (line 186), before `scaled` and `drawImage`
(lines 190-192), or before the final unlock (line 194). -/
inductive PaintPc
  | idle
  | lock
  | nullCheck
  | unlockReturn
  | draw
  | unlock
  deriving DecidableEq

/-- The shared slot, its mutex (`none`: free, else the owner) and both
threads. -/
structure Sys where
  d_image : QImage
  d_mutex : Option Thread
  capture : CapPc
  paint : PaintPc
  deriving DecidableEq

/-- Who takes the next step: the capture thread (with the event its poll
returns, used when the step is the return of the poll, and the allocator's
answer, used when the step is the dimension check) or the paint thread. -/
inductive SysMove
  | capture (e : Event) (alloc : Bool)
  | paint
  deriving DecidableEq

/-- What a step shows: a completed publish of `f` (the capture thread's
unlock), the image the paint thread reads for `scaled` and `drawImage`, an
empty snapshot, a thread waiting for the mutex, or nothing. -/
inductive SysObs
  | published (f : Frame)
  | drew (img : QImage)
  | drewNothing
  | blocked
  | silent
  deriving DecidableEq

/-- One step of the capture thread. -/
def captureStep (s : Sys) (e : Event) (alloc : Bool) : Sys × SysObs :=
  match s.capture with
  | CapPc.poll =>
    match e with
    | Event.video f => ({ s with capture := CapPc.lock f }, SysObs.silent)
    | _ => (s, SysObs.silent)
  | CapPc.lock f =>
    match s.d_mutex with
    | none => ({ s with d_mutex := some Thread.capture, capture := CapPc.check f }, SysObs.silent)
    | some _ => (s, SysObs.blocked)
  | CapPc.check f =>
    ({ s with d_image := reallocIfNeeded alloc f s.d_image, capture := CapPc.row f 0 0 },
      SysObs.silent)
  | CapPc.row f y source =>
    if y < f.yres then
      match copyRow f y source s.d_image with
      | some d_image' =>
        ({ s with d_image := d_image',
                  capture := CapPc.row f (y + 1) (source + f.line_stride_in_bytes) },
          SysObs.silent)
      | none => ({ s with capture := CapPc.crashed }, SysObs.silent)
    else ({ s with capture := CapPc.unlock f }, SysObs.silent)
  | CapPc.unlock f => ({ s with d_mutex := none, capture := CapPc.poll }, SysObs.published f)
  | CapPc.crashed => (s, SysObs.silent)

/-- One step of the paint thread. -/
def paintStep (s : Sys) : Sys × SysObs :=
  match s.paint with
  | PaintPc.idle => ({ s with paint := PaintPc.lock }, SysObs.silent)
  | PaintPc.lock =>
    match s.d_mutex with
    | none => ({ s with d_mutex := some Thread.paint, paint := PaintPc.nullCheck }, SysObs.silent)
    | some _ => (s, SysObs.blocked)
  | PaintPc.nullCheck =>
    if s.d_image.isNull then ({ s with paint := PaintPc.unlockReturn }, SysObs.silent)
    else ({ s with paint := PaintPc.draw }, SysObs.silent)
  | PaintPc.unlockReturn =>
    ({ s with d_mutex := none, paint := PaintPc.idle }, SysObs.drewNothing)
  | PaintPc.draw => ({ s with paint := PaintPc.unlock }, SysObs.drew s.d_image)
  | PaintPc.unlock => ({ s with d_mutex := none, paint := PaintPc.idle }, SysObs.silent)

/-- One step of the system. -/
def sysStep (s : Sys) : SysMove → Sys × SysObs
  | SysMove.capture e alloc => captureStep s e alloc
  | SysMove.paint => paintStep s

/-- What the steps of a schedule show, in order. -/
def sysTrace : Sys → List SysMove → List SysObs
  | _, [] => []
  | s, m :: ms => (sysStep s m).2 :: sysTrace (sysStep s m).1 ms

/-- The widget after construction: null image, free mutex, the capture thread
in its poll, no paint event under way. -/
def sysStart : Sys := ⟨QImage.null, none, CapPc.poll, PaintPc.idle⟩

/-- The frame of the latest completed publish after one more observation. -/
def noteObs (last : Option Frame) : SysObs → Option Frame
  | SysObs.published f => some f
  | _ => last

/-- The frame of the latest completed publish in a trace, if there is one. -/
def lastPublished (tr : List SysObs) : Option Frame := tr.foldl noteObs none

/-- The video frames a schedule delivers satisfy the contract of publish. -/
def SysMove.Ok : SysMove → Prop
  | SysMove.capture (Event.video f) _ => f.IsInt ∧ f.Valid
  | _ => True

instance (m : SysMove) : Decidable m.Ok := by
  unfold SysMove.Ok; split <;> infer_instance

/-- The image the slot holds when the latest completed publish is `last`. -/
def stored : Option Frame → QImage
  | none => QImage.null
  | some f => frameImage f

/-- The capture thread is outside its critical section. -/
def capOutside : CapPc → Prop
  | CapPc.poll => True
  | CapPc.lock f => f.IsInt ∧ f.Valid
  | _ => False

/-- The capture thread is inside its critical section and `img` is what its
publish has built so far; or the allocation failed and it is about to write
through a null pointer, or has done so and is stopped with the mutex held. -/
def capInside (img : QImage) : CapPc → Prop
  | CapPc.check f => f.IsInt ∧ f.Valid ∧ img.WF
  | CapPc.row f y source => f.IsInt ∧ f.Valid ∧
      ((img.d = none ∧ y = 0) ∨
       ∃ n : Nat, y = (n : Int) ∧ n ≤ f.yres.toNat ∧
        source = (n : Int) * f.line_stride_in_bytes ∧ RowInv f n img)
  | CapPc.unlock f => f.IsInt ∧ f.Valid ∧ img = frameImage f
  | CapPc.crashed => True
  | _ => False

/-- The paint thread is outside its critical section. -/
def paintOutside : PaintPc → Prop
  | PaintPc.idle => True
  | PaintPc.lock => True
  | _ => False

/-- The paint thread is inside its critical section; it is about to draw only
when a publish has completed. -/
def paintInside (last : Option Frame) : PaintPc → Prop
  | PaintPc.nullCheck => True
  | PaintPc.unlockReturn => True
  | PaintPc.draw => last ≠ none
  | PaintPc.unlock => True
  | _ => False

/-- The invariant of the interleaved system: the mutex owner is the one thread
inside its critical section, and unless the capture thread is inside, the slot
holds the image of the latest completed publish. -/
def SysInv (last : Option Frame) (s : Sys) : Prop :=
  (∀ f, last = some f → f.Valid) ∧
  match s.d_mutex with
  | none => s.d_image = stored last ∧ capOutside s.capture ∧ paintOutside s.paint
  | some Thread.paint => s.d_image = stored last ∧ capOutside s.capture ∧ paintInside last s.paint
  | some Thread.capture => capInside s.d_image s.capture ∧ paintOutside s.paint

/-- The paint thread starts a paint event and takes the mutex; a 1x2 frame
arrives and the capture thread has to wait; the paint thread returns (nothing
to draw yet); the publish runs; a second 2x1 frame is published up to its
dimension check while the paint thread starts over and waits; the publish ends
and the paint thread draws. -/
def scheduleA : List SysMove :=
  [SysMove.paint, SysMove.paint, SysMove.capture (Event.video frameA) true,
   SysMove.capture Event.noData true, SysMove.paint, SysMove.paint,
   SysMove.capture Event.noData true, SysMove.capture Event.noData true, SysMove.capture Event.noData true,
   SysMove.capture Event.noData true, SysMove.capture Event.noData true, SysMove.capture Event.noData true,
   SysMove.capture (Event.video frameB) true, SysMove.capture Event.noData true,
   SysMove.capture Event.noData true, SysMove.paint, SysMove.paint,
   SysMove.capture Event.noData true, SysMove.capture Event.noData true, SysMove.capture Event.noData true,
   SysMove.paint, SysMove.paint, SysMove.paint, SysMove.paint]

/-- A `scaled` that keeps the image as it is. -/
def scaledId : QImage → QSize → QImage := fun img _ => img

/-- The finder reports one source at once, but no receiver can be created. -/
def envNoReceiver : Env :=
  { lib_init := true, find_create := true, exit_loop := fun _ => false,
    current_sources := fun _ => (some ["camera"], 1), recv_create := false,
    d_stop := fun _ => false, recv_capture := fun _ => Event.noData,
    alloc := fun _ => true }

/-- The library start-up fails. -/
def envNoLibrary : Env := { envNoReceiver with lib_init := false }

/-- No finder can be created. -/
def envNoFinder : Env := { envNoReceiver with find_create := false }

/-- The finder reports a source count but hands back a null list pointer. -/
def envNoSourceList : Env := { envNoReceiver with current_sources := fun _ => (none, 1) }

/-- No source ever appears, nobody raises `exit_loop`, and the destructor has
set `d_stop` before the worker even starts. -/
def envStoppedNoSource : Env :=
  { lib_init := true, find_create := true, exit_loop := fun _ => false,
    current_sources := fun _ => (none, 0), recv_create := true,
    d_stop := fun _ => true, recv_capture := fun _ => Event.noData,
    alloc := fun _ => true }

/-- Line 200: `QImage d_image;` is default-constructed, so the widget starts
with a null image. -/
def initialImage : QImage := QImage.null

/-- The loop body run over a list of events, then the teardown: what the
capture loop does when it polls exactly these events before it reads the stop
flag as set. -/
def handleAll (alloc : Nat → Bool) : Nat → List Event → QImage → List Effect → Outcome
  | _, [], d_image, effects =>
    ⟨Exit.finished, d_image, effects ++ [Effect.recvDestroy, Effect.ndiDestroy]⟩
  | k, e :: es, d_image, effects =>
    match handle (alloc k) e d_image with
    | (some d_image', xs) => handleAll alloc (k + 1) es d_image' (effects ++ xs)
    | (none, xs) => ⟨Exit.crashed, d_image, effects ++ xs⟩

/-! ## Publish stores the image of the frame -/

theorem stride_mul_le {f : Frame} (hv : f.Valid) {y : Nat} (hy : y < f.yres.toNat) :
    0 ≤ (y : Int) * f.line_stride_in_bytes ∧
    (y : Int) * f.line_stride_in_bytes + f.line_stride_in_bytes ≤ (f.p_data.length : Int) := by
  obtain ⟨hx, hh, hs, hl⟩ := hv
  have hs0 : 0 ≤ f.line_stride_in_bytes := by omega
  have h1 : ((y : Int) + 1) ≤ f.yres := by omega
  have h2 : ((y : Int) + 1) * f.line_stride_in_bytes ≤ f.yres * f.line_stride_in_bytes :=
    Int.mul_le_mul_of_nonneg_right h1 hs0
  have h3 : 0 ≤ (y : Int) * f.line_stride_in_bytes :=
    Int.mul_nonneg (Int.ofNat_nonneg y) hs0
  constructor
  · exact h3
  · have : ((y : Int) + 1) * f.line_stride_in_bytes
        = (y : Int) * f.line_stride_in_bytes + f.line_stride_in_bytes := by ring
    omega

theorem rowBytes_length {f : Frame} (hv : f.Valid) {y : Nat} (hy : y < f.yres.toNat) :
    (rowBytes f y).length = 4 * f.xres.toNat := by
  obtain ⟨h0, h1⟩ := stride_mul_le hv hy
  obtain ⟨hx, hh, hs, hl⟩ := hv
  simp only [rowBytes, List.length_map, List.length_take, List.length_drop]
  omega

theorem rowsUpTo_length {f : Frame} (hv : f.Valid) :
    ∀ {y : Nat}, y ≤ f.yres.toNat → (rowsUpTo f y).length = 4 * f.xres.toNat * y
  | 0, _ => by simp [rowsUpTo]
  | y + 1, hy => by
    have ih := rowsUpTo_length hv (y := y) (by omega)
    have hr := rowBytes_length hv (y := y) (by omega)
    simp only [rowsUpTo, List.length_append, ih, hr]
    ring

theorem copyRow_inv {f : Frame} (hi : f.IsInt) (hv : f.Valid) {y : Nat}
    (hy : y < f.yres.toNat) {img : QImage} (h : RowInv f y img) :
    ∃ img', copyRow f y ((y : Int) * f.line_stride_in_bytes) img = some img' ∧
      RowInv f (y + 1) img' := by
  obtain ⟨data, rfl, hlen, htake⟩ := h
  obtain ⟨h0, h1⟩ := stride_mul_le hv hy
  have hrow := rowBytes_length hv hy
  obtain ⟨hx, hh, hs, hl⟩ := hv
  obtain ⟨_, _, _, hs31⟩ := hi
  have hmul : mulInt f.xres 4 = some (f.xres * 4) := by
    unfold mulInt; rw [if_pos]; omega
  have hsz : toSizeT (f.xres * 4) = 4 * f.xres.toNat := by
    unfold toSizeT; omega
  have hscan : QImage.scanLine
      ⟨some ⟨f.xres.toNat, f.yres.toNat, 4 * f.xres.toNat, data⟩⟩ (y : Int)
      = some (y * (4 * f.xres.toNat)) := by
    simp only [QImage.scanLine]; rw [if_pos]
    · simp
    · omega
  have hle : 4 * f.xres.toNat * (y + 1) ≤ 4 * f.xres.toNat * f.yres.toNat :=
    Nat.mul_le_mul_left _ hy
  have hoff : y * (4 * f.xres.toNat) = 4 * f.xres.toNat * y := by ring
  have hexp : 4 * f.xres.toNat * (y + 1) = 4 * f.xres.toNat * y + 4 * f.xres.toNat := by ring
  have hmem : memcpy data (y * (4 * f.xres.toNat)) f.p_data
      ((y : Int) * f.line_stride_in_bytes) (4 * f.xres.toNat)
      = some (data.take (4 * f.xres.toNat * y) ++ rowBytes f y
          ++ data.drop (4 * f.xres.toNat * y + 4 * f.xres.toNat)) := by
    unfold memcpy; rw [if_pos]
    · simp only [rowBytes, hoff]
    · refine ⟨h0, ?_, ?_⟩ <;> omega
  refine ⟨⟨some ⟨f.xres.toNat, f.yres.toNat, 4 * f.xres.toNat,
      data.take (4 * f.xres.toNat * y) ++ rowBytes f y
          ++ data.drop (4 * f.xres.toNat * y + 4 * f.xres.toNat)⟩⟩, ?_, ?_⟩
  · simp only [copyRow, hscan, hmul, hsz, hmem]
  · refine ⟨_, rfl, ?_, ?_⟩
    · simp only [List.length_append, List.length_take, List.length_drop, hrow]
      omega
    · have hl1 : (data.take (4 * f.xres.toNat * y) ++ rowBytes f y).length
          = 4 * f.xres.toNat * (y + 1) := by
        simp only [List.length_append, List.length_take, hrow]; omega
      rw [← hl1, List.take_left, htake, rowsUpTo]

theorem copyRows_inv {f : Frame} (hi : f.IsInt) (hv : f.Valid) :
    ∀ (todo y : Nat) (img : QImage), todo + y = f.yres.toNat → RowInv f y img →
      copyRows f todo (y : Int) ((y : Int) * f.line_stride_in_bytes) img = some (frameImage f)
  | 0, y, img, hty, h => by
    obtain ⟨data, rfl, hlen, htake⟩ := h
    have hy : y = f.yres.toNat := by omega
    subst hy
    rw [← hlen, List.take_length] at htake
    simp [copyRows, frameImage, htake]
  | todo + 1, y, img, hty, h => by
    obtain ⟨img', hc, h'⟩ := copyRow_inv hi hv (y := y) (by omega) h
    have ih := copyRows_inv hi hv todo (y + 1) img' (by omega) h'
    have he : ((y : Int) + 1) * f.line_stride_in_bytes
        = (y : Int) * f.line_stride_in_bytes + f.line_stride_in_bytes := by ring
    simp only [copyRows, hc]
    rw [← he]
    exact_mod_cast ih

theorem realloc_inv {alloc : Bool} {f : Frame} (hv : f.Valid) {img : QImage} (hw : img.WF)
    (ha : alloc = true ∨ (f.xres = img.width ∧ f.yres = img.height)) :
    RowInv f 0 (reallocIfNeeded alloc f img) := by
  obtain ⟨hx, hh, hs, hl⟩ := hv
  unfold reallocIfNeeded
  split
  · rename_i hdiff
    have hat : alloc = true := by
      rcases ha with h | ⟨h1, h2⟩
      · exact h
      · rcases hdiff with h | h
        · exact absurd h1 h
        · exact absurd h2 h
    refine ⟨List.replicate (4 * f.xres.toNat * f.yres.toNat) none, ?_, ?_, ?_⟩
    · unfold QImage.create; rw [if_neg]; simp [hat]; omega
    · simp
    · simp [rowsUpTo]
  · rename_i hne
    have hne' : f.xres = img.width ∧ f.yres = img.height := by
      constructor <;> by_contra hc <;> exact hne (by simp [hc])
    obtain ⟨d⟩ := img
    cases d with
    | none => simp [QImage.width] at hne'; omega
    | some x =>
      obtain ⟨w, h, bpl, data⟩ := x
      simp only [QImage.width, QImage.height] at hne'
      simp only [QImage.WF] at hw
      obtain ⟨hw1, hw2, hw3, hw4⟩ := hw
      obtain ⟨e1, e2⟩ := hne'
      refine ⟨data, ?_, ?_, ?_⟩
      · simp [e1, e2, hw3]
      · simp [e1, e2, hw4, hw3]
      · simp [rowsUpTo]

/-- After the dimension check the slot is either ready for the row loop or,
when the allocation failed, null. -/
theorem realloc_cases (alloc : Bool) {f : Frame} (hv : f.Valid) {img : QImage} (hw : img.WF) :
    (reallocIfNeeded alloc f img).d = none ∨ RowInv f 0 (reallocIfNeeded alloc f img) := by
  by_cases hd : f.xres = img.width ∧ f.yres = img.height
  · exact Or.inr (realloc_inv hv hw (Or.inr hd))
  · cases alloc with
    | true => exact Or.inr (realloc_inv hv hw (Or.inl rfl))
    | false =>
      left
      have hd' : f.xres ≠ img.width ∨ f.yres ≠ img.height := by
        by_contra hc
        exact hd ⟨by_contra fun h => hc (Or.inl h), by_contra fun h => hc (Or.inr h)⟩
      simp [reallocIfNeeded, hd', QImage.create, QImage.null]

/-- One publish of a valid frame stores exactly the image of that frame,
whatever the slot held before, when the allocation it may make succeeds. -/
theorem publish_eq {alloc : Bool} {f : Frame} (hi : f.IsInt) (hv : f.Valid) {img : QImage}
    (hw : img.WF) (ha : alloc = true ∨ (f.xres = img.width ∧ f.yres = img.height)) :
    publish alloc f img = some (frameImage f) := by
  have h := copyRows_inv hi hv f.yres.toNat 0 _ (by simp) (realloc_inv hv hw ha)
  simpa [publish] using h

/-- A publish that has to allocate and cannot writes through the null pointer
that `scanLine` returns. -/
theorem publish_alloc_failed {f : Frame} (hv : f.Valid) {img : QImage}
    (hd : f.xres ≠ img.width ∨ f.yres ≠ img.height) : publish false f img = none := by
  obtain ⟨hx, hh, hs, hl⟩ := hv
  obtain ⟨n, hn⟩ : ∃ n, f.yres.toNat = n + 1 := ⟨f.yres.toNat - 1, by omega⟩
  have hr : reallocIfNeeded false f img = QImage.null := by
    simp [reallocIfNeeded, hd, QImage.create]
  simp [publish, hr, hn, copyRows, copyRow, QImage.null]

theorem frameImage_wf {f : Frame} (hv : f.Valid) : (frameImage f).WF := by
  have hl := rowsUpTo_length hv (y := f.yres.toNat) (le_refl _)
  obtain ⟨hx, hh, hs, hl'⟩ := hv
  simp only [QImage.WF, frameImage]
  refine ⟨by omega, by omega, trivial, hl⟩

theorem rowBytes_getElem? {f : Frame} (hv : f.Valid) {y : Nat} (hy : y < f.yres.toNat)
    {i : Nat} (hi : i < 4 * f.xres.toNat) :
    ∃ b, f.byteAt y i = some b ∧ (rowBytes f y)[i]? = some (some b) := by
  obtain ⟨h0, h1⟩ := stride_mul_le hv hy
  obtain ⟨hx, hh, hs, hl⟩ := hv
  have hidx : ((y : Int) * f.line_stride_in_bytes + (i : Int)).toNat
      = ((y : Int) * f.line_stride_in_bytes).toNat + i := by omega
  have hlt : ((y : Int) * f.line_stride_in_bytes).toNat + i < f.p_data.length := by omega
  refine ⟨f.p_data[((y : Int) * f.line_stride_in_bytes).toNat + i], ?_, ?_⟩
  · unfold Frame.byteAt
    rw [if_pos (by omega), hidx, List.getElem?_eq_getElem hlt]
  · simp only [rowBytes, List.getElem?_map, List.getElem?_take, List.getElem?_drop]
    simp [hi, List.getElem?_eq_getElem hlt]

theorem rowsUpTo_getElem? {f : Frame} (hv : f.Valid) {y i : Nat} (hi : i < 4 * f.xres.toNat) :
    ∀ {n : Nat}, y < n → n ≤ f.yres.toNat →
      (rowsUpTo f n)[4 * f.xres.toNat * y + i]? = (rowBytes f y)[i]?
  | 0, hy, _ => by omega
  | n + 1, hy, hn => by
    have hlen := rowsUpTo_length hv (y := n) (by omega)
    simp only [rowsUpTo]
    by_cases hyn : y < n
    · have hlt : 4 * f.xres.toNat * y + i < (rowsUpTo f n).length := by
        rw [hlen]
        have : 4 * f.xres.toNat * (y + 1) ≤ 4 * f.xres.toNat * n := Nat.mul_le_mul_left _ hyn
        have : 4 * f.xres.toNat * (y + 1) = 4 * f.xres.toNat * y + 4 * f.xres.toNat := by ring
        omega
      rw [List.getElem?_append_left hlt]
      exact rowsUpTo_getElem? hv hi hyn (by omega)
    · have hyeq : y = n := by omega
      subst hyeq
      rw [List.getElem?_append_right (by rw [hlen]; omega), hlen]
      simp

/-- Every cell of the image of a valid frame is the frame's byte at the same
row and column. -/
theorem frameImage_byteAt {f : Frame} (hv : f.Valid) {y i : Nat} (hy : y < f.yres.toNat)
    (hi : i < 4 * f.xres.toNat) :
    ∃ b, f.byteAt y i = some b ∧ (frameImage f).byteAt y i = some b := by
  obtain ⟨b, hb1, hb2⟩ := rowBytes_getElem? hv hy hi
  refine ⟨b, hb1, ?_⟩
  have h := rowsUpTo_getElem? hv (y := y) hi hy (le_refl _)
  have hc : y * (4 * f.xres.toNat) + i = 4 * f.xres.toNat * y + i := by ring
  simp only [QImage.byteAt, frameImage, hc, h, hb2]
  rfl

/-! ## Every image the slot can hold is well-formed -/

theorem memcpy_length {dst : List (Option Nat)} {dest : Nat} {src : List Nat} {source : Int}
    {n : Nat} {r : List (Option Nat)} (h : memcpy dst dest src source n = some r) :
    r.length = dst.length := by
  unfold memcpy at h
  split at h
  · rename_i hb
    simp only [Option.some.injEq] at h
    subst h
    simp only [List.length_append, List.length_take, List.length_map, List.length_drop]
    omega
  · exact absurd h (by simp)

theorem copyRow_wf {f : Frame} {y source : Int} {img img' : QImage} (hw : img.WF)
    (h : copyRow f y source img = some img') : img'.WF := by
  obtain ⟨d⟩ := img
  cases d with
  | none => simp [copyRow] at h
  | some x =>
    simp only [copyRow] at h
    split at h
    · rename_i x' dest n hx hs hm
      simp only [Option.some.injEq] at hx
      subst hx
      split at h
      · rename_i data hd
        simp only [Option.some.injEq] at h
        subst h
        simp only [QImage.WF] at hw ⊢
        rw [memcpy_length hd]
        exact hw
      · exact absurd h (by simp)
    · exact absurd h (by simp)

theorem copyRows_wf {f : Frame} :
    ∀ (todo : Nat) (y source : Int) (img img' : QImage), img.WF →
      copyRows f todo y source img = some img' → img'.WF
  | 0, _, _, img, img', hw, h => by
    simp only [copyRows, Option.some.injEq] at h
    exact h ▸ hw
  | todo + 1, y, source, img, img', hw, h => by
    rw [copyRows] at h
    split at h
    · exact absurd h (by simp)
    · rename_i img1 hc
      exact copyRows_wf todo _ _ img1 img' (copyRow_wf hw hc) h

theorem create_wf (alloc : Bool) (w h : Int) : (QImage.create alloc w h).WF := by
  unfold QImage.create
  split
  · simp [QImage.WF, QImage.null]
  · simp only [QImage.WF]
    refine ⟨by omega, by omega, trivial, by simp⟩

/-- A publish that runs to its end leaves a well-formed image in the slot,
for any frame at all. -/
theorem publish_wf {alloc : Bool} {f : Frame} {img img' : QImage} (hw : img.WF)
    (h : publish alloc f img = some img') : img'.WF := by
  refine copyRows_wf _ _ _ _ _ ?_ h
  unfold reallocIfNeeded
  split
  · exact create_wf _ _ _
  · exact hw

theorem initialImage_wf : initialImage.WF := by
  simp [initialImage, QImage.WF, QImage.null]

theorem frameImage_dims {f : Frame} (hv : f.Valid) :
    (frameImage f).width = f.xres ∧ (frameImage f).height = f.yres := by
  obtain ⟨hx, hh, _⟩ := hv
  simp only [QImage.width, QImage.height, frameImage]
  omega

/-! ## The capture loop over a finite run of events -/

theorem captureLoop_run (d_stop : Nat → Bool) (recv_capture : Nat → Event)
    (alloc : Nat → Bool) :
    ∀ (events : List Event) (k : Nat) (d_image : QImage) (effects : List Effect),
      (∀ j, j < events.length → d_stop (k + j) = false) →
      d_stop (k + events.length) = true →
      (∀ j, j < events.length → recv_capture (k + j) = events.getD j Event.noData) →
      captureLoop d_stop recv_capture alloc (events.length + 1) k d_image effects
        = some (handleAll alloc k events d_image effects)
  | [], k, d_image, effects, _, h1, _ => by
    simp only [List.length_nil, Nat.add_zero] at h1
    simp [captureLoop, handleAll, h1]
  | e :: es, k, d_image, effects, h0, h1, h2 => by
    have hk : d_stop k = false := h0 0 (by simp)
    have hc : recv_capture k = e := by simpa using h2 0 (by simp)
    have ih := fun img effs => captureLoop_run d_stop recv_capture alloc es (k + 1) img effs
      (fun j hj => by
        have := h0 (j + 1) (by simp; omega)
        rwa [show k + 1 + j = k + (j + 1) by omega])
      (by
        rw [show k + 1 + es.length = k + (e :: es).length by simp; omega]
        exact h1)
      (fun j hj => by
        have := h2 (j + 1) (by simp; omega)
        rw [show k + 1 + j = k + (j + 1) by omega, this]
        simp)
    rw [List.length_cons, captureLoop, handleAll, hk, hc]
    cases hh : handle (alloc k) e d_image with
    | mk r xs =>
      cases r with
      | none => simp
      | some img => simpa using ih img (effects ++ xs)

theorem captureLoop_events (alloc : Nat → Bool) (events : List Event) (d_image : QImage)
    (effects : List Effect) :
    captureLoop (stopAfter events.length) (pollFrom events) alloc (events.length + 1) 0
        d_image effects
      = some (handleAll alloc 0 events d_image effects) := by
  apply captureLoop_run
  · intro j hj; simp [stopAfter]; omega
  · simp [stopAfter]
  · intro j _; simp [pollFrom]

theorem handleAll_publishAll (alloc : Nat → Bool) :
    ∀ (events : List Event) (k : Nat) (d_image : QImage) (effects : List Effect),
      match publishAll (videoFrames alloc k events) d_image with
      | some r => (handleAll alloc k events d_image effects).exit = Exit.finished ∧
          (handleAll alloc k events d_image effects).d_image = r
      | none => (handleAll alloc k events d_image effects).exit = Exit.crashed
  | [], k, d_image, effects => by simp [videoFrames, publishAll, handleAll]
  | e :: es, k, d_image, effects => by
    cases e with
    | video f =>
      simp only [videoFrames, publishAll, handleAll, handle]
      cases hp : publish (alloc k) f d_image with
      | none => simp
      | some img => simpa using handleAll_publishAll alloc es (k + 1) img _
    | noData =>
      simpa [videoFrames, handleAll, handle] using handleAll_publishAll alloc es (k + 1) d_image _
    | audio n =>
      simpa [videoFrames, handleAll, handle] using handleAll_publishAll alloc es (k + 1) d_image _
    | metadata =>
      simpa [videoFrames, handleAll, handle] using handleAll_publishAll alloc es (k + 1) d_image _
    | statusChange =>
      simpa [videoFrames, handleAll, handle] using handleAll_publishAll alloc es (k + 1) d_image _
    | unknown =>
      simpa [videoFrames, handleAll, handle] using handleAll_publishAll alloc es (k + 1) d_image _

theorem publishAll_valid :
    ∀ (fs : List (Bool × Frame)) (a : Bool) (f : Frame) (d_image : QImage), d_image.WF →
      (∀ g ∈ fs ++ [(a, f)], g.2.IsInt ∧ g.2.Valid) →
      AllocsOk d_image.width d_image.height (fs ++ [(a, f)]) →
      publishAll (fs ++ [(a, f)]) d_image = some (frameImage f)
  | [], a, f, d_image, hw, h, hal => by
    obtain ⟨hi, hv⟩ := h (a, f) (by simp)
    simp only [List.nil_append, AllocsOk, and_true] at hal
    simp [publishAll, publish_eq hi hv hw hal]
  | (b, g) :: fs, a, f, d_image, hw, h, hal => by
    obtain ⟨hi, hv⟩ := h (b, g) (by simp)
    simp only [List.cons_append, AllocsOk] at hal
    obtain ⟨hb, hrest⟩ := hal
    obtain ⟨hwd, hht⟩ := frameImage_dims hv
    have ih := publishAll_valid fs a f (frameImage g) (frameImage_wf hv)
      (fun x hx => h x (List.mem_cons_of_mem _ hx)) (by rw [hwd, hht]; exact hrest)
    simp only [List.cons_append, publishAll, publish_eq hi hv hw hb]
    exact ih

theorem videoFrames_no_video (alloc : Nat → Bool) :
    ∀ (events : List Event) (k : Nat), (∀ e ∈ events, e.isVideo = false) →
      videoFrames alloc k events = []
  | [], _, _ => rfl
  | e :: es, k, h => by
    have ih := videoFrames_no_video alloc es (k + 1) (fun x hx => h x (List.mem_cons_of_mem _ hx))
    cases e with
    | video f => exact absurd (h _ (List.mem_cons_self _ _)) (by simp [Event.isVideo])
    | _ => simpa [videoFrames] using ih

theorem discover_no_source (exit_loop : Nat → Bool)
    (current_sources : Nat → Option (List Source) × Nat)
    (he : ∀ k, exit_loop k = false) (hs : ∀ k, (current_sources k).2 = 0) :
    ∀ (fuel k : Nat) (st : Option (List Source) × Nat), st.2 = 0 →
      discover exit_loop current_sources fuel k st = none
  | 0, _, _, _ => rfl
  | fuel + 1, k, (p, n), h => by
    simp only at h
    subst h
    rw [discover]
    simp only [he, Bool.not_false, beq_self_eq_true, Bool.and_self, if_true]
    exact discover_no_source exit_loop current_sources he hs fuel (k + 1) _ (hs k)

/-! ## The capture loop against the destructor -/

theorem count_writes_returned :
    ∀ (ms : List LoopMove) (s : LoopState), s.pc = LoopPc.returned →
      (loopTrace s ms).count LoopObs.wroteImage = 0
  | [], _, _ => rfl
  | m :: ms, s, h => by
    cases m with
    | destructor =>
      simpa [loopTrace, loopStep] using count_writes_returned ms { s with d_stop := true } h
    | worker e al =>
      have hs : loopStep s (LoopMove.worker e al) = (s, LoopObs.idle) := by
        simp [loopStep, h]
      simpa [loopTrace, hs] using count_writes_returned ms s h

theorem count_writes_crashed :
    ∀ (ms : List LoopMove) (s : LoopState), s.pc = LoopPc.crashed →
      (loopTrace s ms).count LoopObs.wroteImage = 0
  | [], _, _ => rfl
  | m :: ms, s, h => by
    cases m with
    | destructor =>
      simpa [loopTrace, loopStep] using count_writes_crashed ms { s with d_stop := true } h
    | worker e al =>
      have hs : loopStep s (LoopMove.worker e al) = (s, LoopObs.idle) := by
        simp [loopStep, h]
      simpa [loopTrace, hs] using count_writes_crashed ms s h

theorem count_writes_stopped :
    ∀ (ms : List LoopMove) (s : LoopState), s.d_stop = true →
      (loopTrace s ms).count LoopObs.wroteImage ≤ writesLeft s.pc
  | [], _, _ => by simp [loopTrace]
  | m :: ms, s, h => by
    obtain ⟨pc, d_stop, d_image⟩ := s
    simp only at h
    subst h
    cases m with
    | destructor =>
      simpa [loopTrace, loopStep] using count_writes_stopped ms ⟨pc, true, d_image⟩ rfl
    | worker e al =>
      cases pc with
      | test =>
        have := count_writes_returned ms ⟨LoopPc.returned, true, d_image⟩ rfl
        simp [loopTrace, loopStep, this]
      | poll =>
        have := count_writes_stopped ms ⟨LoopPc.dispatch e, true, d_image⟩ rfl
        simp only [writesLeft] at this
        have h1 : writesLeft LoopPc.poll = 1 := rfl
        simp only [loopTrace, loopStep, h1]
        rw [List.count_cons_of_ne (by decide)]
        split at this <;> omega
      | dispatch ev =>
        simp only [loopTrace, loopStep, writesLeft]
        cases hh : handle al ev d_image with
        | mk r xs =>
          cases r with
          | some img =>
            have := count_writes_stopped ms ⟨LoopPc.test, true, img⟩ rfl
            simp only [writesLeft] at this
            cases hv : ev.isVideo <;> simp [List.count_cons] <;> omega
          | none =>
            have := count_writes_crashed ms ⟨LoopPc.crashed, true, d_image⟩ rfl
            cases hv : ev.isVideo <;> simp [List.count_cons, this]
      | returned =>
        have := count_writes_returned ms ⟨LoopPc.returned, true, d_image⟩ rfl
        simp [loopTrace, loopStep, this]
      | crashed =>
        have := count_writes_crashed ms ⟨LoopPc.crashed, true, d_image⟩ rfl
        simp [loopTrace, loopStep, this]

theorem writesLeft_le_one (pc : LoopPc) : writesLeft pc ≤ 1 := by
  cases pc <;> simp [writesLeft]
  split <;> omega

theorem writesAfterStop_le_one :
    ∀ (ms : List LoopMove) (s : LoopState), writesAfterStop (loopTrace s ms) ≤ 1
  | [], _ => by simp [loopTrace, writesAfterStop]
  | m :: ms, s => by
    cases m with
    | destructor =>
      have h1 := count_writes_stopped ms { s with d_stop := true } rfl
      have h2 := writesLeft_le_one s.pc
      simp only [loopTrace, loopStep, writesAfterStop]
      simp only at h1
      omega
    | worker e al =>
      have ih := writesAfterStop_le_one ms (loopStep s (LoopMove.worker e al)).1
      have hne : (loopStep s (LoopMove.worker e al)).2 ≠ LoopObs.setStop := by
        simp only [loopStep]
        split
        · split <;> simp
        · simp
        · split <;> split <;> simp
        · simp
        · simp
      simp only [loopTrace]
      generalize (loopStep s (LoopMove.worker e al)).2 = o at hne
      cases o <;> simp_all [writesAfterStop]

theorem writesAfterSeenStop_zero :
    ∀ (ms : List LoopMove) (s : LoopState), writesAfterSeenStop (loopTrace s ms) = 0
  | [], _ => by simp [loopTrace, writesAfterSeenStop]
  | m :: ms, s => by
    cases m with
    | destructor =>
      simpa [loopTrace, loopStep, writesAfterSeenStop]
        using writesAfterSeenStop_zero ms { s with d_stop := true }
    | worker e al =>
      have ih := writesAfterSeenStop_zero ms (loopStep s (LoopMove.worker e al)).1
      by_cases ht : (loopStep s (LoopMove.worker e al)).2 = LoopObs.tested true
      · have hpc : (loopStep s (LoopMove.worker e al)).1.pc = LoopPc.returned := by
          revert ht
          simp only [loopStep]
          split
          · split <;> simp
          · simp
          · split <;> split <;> simp
          · simp
          · simp
        have := count_writes_returned ms _ hpc
        simp only [loopTrace, ht, writesAfterSeenStop, this]
      · simp only [loopTrace]
        generalize (loopStep s (LoopMove.worker e al)).2 = o at ht
        cases o with
        | tested b => cases b <;> simp_all [writesAfterSeenStop]
        | _ => simp_all [writesAfterSeenStop]

/-! ## Publish against snapshot -/

theorem stored_wf {last : Option Frame} (h : ∀ f, last = some f → f.Valid) : (stored last).WF := by
  cases last with
  | none => simp [stored, QImage.WF, QImage.null]
  | some f => exact frameImage_wf (h f rfl)

theorem rowInv_full {f : Frame} {img : QImage} (h : RowInv f f.yres.toNat img) :
    img = frameImage f := by
  obtain ⟨data, rfl, hlen, htake⟩ := h
  rw [← hlen, List.take_length] at htake
  simp [frameImage, htake]

theorem paintStep_inv {last : Option Frame} {s : Sys} (h : SysInv last s) :
    SysInv (noteObs last (paintStep s).2) (paintStep s).1 ∧
    ∀ img, (paintStep s).2 = SysObs.drew img → ∃ f, last = some f ∧ img = frameImage f := by
  obtain ⟨d_image, d_mutex, cap, pnt⟩ := s
  obtain ⟨hl, h⟩ := h
  cases pnt <;> rcases d_mutex with _ | _ | _ <;>
    simp only [paintStep, paintOutside, paintInside, and_false, false_and] at h ⊢ <;>
    try (exact h.elim)
  all_goals first
    | (refine ⟨⟨hl, ?_⟩, ?_⟩
       · simpa [noteObs, paintOutside, paintInside] using h
       · intro img hh; exact absurd hh (by simp))
    | skip
  · -- null check with the mutex held by the paint thread
    obtain ⟨himg, hc, _⟩ := h
    subst himg
    split
    · exact ⟨⟨hl, by simp [noteObs, paintInside, hc]⟩, fun img hh => absurd hh (by simp)⟩
    · rename_i hnull
      refine ⟨⟨hl, ?_⟩, fun img hh => absurd hh (by simp)⟩
      have : last ≠ none := by
        rintro rfl
        exact hnull (by simp [stored, QImage.isNull, QImage.null])
      simp [noteObs, paintInside, hc, this]
  · -- draw
    obtain ⟨himg, hc, hne⟩ := h
    subst himg
    refine ⟨⟨hl, by simp [noteObs, paintInside, hc]⟩, ?_⟩
    intro img hh
    simp only [SysObs.drew.injEq] at hh
    subst hh
    cases last with
    | none => exact absurd rfl hne
    | some f => exact ⟨f, rfl, rfl⟩

theorem captureStep_inv {last : Option Frame} {s : Sys} (e : Event) (al : Bool)
    (he : (SysMove.capture e al).Ok) (h : SysInv last s) :
    SysInv (noteObs last (captureStep s e al).2) (captureStep s e al).1 ∧
    ∀ img, (captureStep s e al).2 = SysObs.drew img →
      ∃ f, last = some f ∧ img = frameImage f := by
  obtain ⟨d_image, d_mutex, cap, pnt⟩ := s
  obtain ⟨hl, h⟩ := h
  cases cap with
  | poll =>
    have hdrew : ∀ img,
        (captureStep ⟨d_image, d_mutex, CapPc.poll, pnt⟩ e al).2 = SysObs.drew img →
        ∃ f, last = some f ∧ img = frameImage f := by
      intro img hh; cases e <;> simp [captureStep] at hh
    refine ⟨⟨?_, ?_⟩, hdrew⟩
    · cases e <;> simpa [captureStep, noteObs] using hl
    · rcases d_mutex with _ | _ | _ <;> simp only [capInside, false_and] at h
      · cases e <;> simp_all [captureStep, noteObs, capOutside, SysMove.Ok]
      · cases e <;> simp_all [captureStep, noteObs, capOutside, SysMove.Ok]
  | lock f =>
    rcases d_mutex with _ | _ | _ <;> simp only [capInside, false_and] at h
    · obtain ⟨himg, ⟨hi, hv⟩, hp⟩ := h
      refine ⟨⟨by simpa [captureStep, noteObs] using hl, ?_⟩,
        fun img hh => absurd hh (by simp [captureStep])⟩
      simp only [captureStep, noteObs, capInside]
      exact ⟨⟨hi, hv, himg ▸ stored_wf hl⟩, hp⟩
    · exact ⟨⟨by simpa [captureStep, noteObs] using hl, by simpa [captureStep, noteObs] using h⟩,
        fun img hh => absurd hh (by simp [captureStep])⟩
  | check f =>
    rcases d_mutex with _ | _ | _ <;> simp only [capOutside, and_false, false_and] at h
    obtain ⟨⟨hi, hv, hw⟩, hp⟩ := h
    refine ⟨⟨by simpa [captureStep, noteObs] using hl, ?_⟩,
      fun img hh => absurd hh (by simp [captureStep])⟩
    simp only [captureStep, noteObs, capInside]
    refine ⟨⟨hi, hv, ?_⟩, hp⟩
    rcases realloc_cases al hv hw with hnull | hrow
    · exact Or.inl ⟨hnull, trivial⟩
    · exact Or.inr ⟨0, by simp, by omega, by simp, hrow⟩
  | row f y source =>
    rcases d_mutex with _ | _ | _ <;> simp only [capOutside, and_false, false_and] at h
    obtain ⟨⟨hi, hv, hcase⟩, hp⟩ := h
    rcases hcase with ⟨hnull, rfl⟩ | ⟨n, rfl, hn, rfl, hrow⟩
    · -- the allocation failed: row 0 is written through a null pointer
      have hy : (0 : Int) < f.yres := hv.2.1
      have hc : copyRow f 0 source d_image = none := by
        simp [copyRow, hnull]
      refine ⟨⟨by simpa [captureStep, noteObs, hy, hc] using hl, ?_⟩,
        fun img hh => absurd hh (by simp [captureStep, hy, hc])⟩
      simp only [captureStep, hy, hc, if_true, noteObs, capInside]
      exact ⟨trivial, hp⟩
    · by_cases hy : (n : Int) < f.yres
      · obtain ⟨img', hc, hrow'⟩ := copyRow_inv hi hv (y := n) (by omega) hrow
        refine ⟨⟨by simpa [captureStep, noteObs, hy, hc] using hl, ?_⟩,
          fun img hh => absurd hh (by simp [captureStep, hy, hc])⟩
        simp only [captureStep, hy, hc, if_true, noteObs, capInside]
        refine ⟨⟨hi, hv, Or.inr ⟨n + 1, by simp, by omega, ?_, hrow'⟩⟩, hp⟩
        push_cast; ring
      · have hn' : n = f.yres.toNat := by omega
        subst hn'
        refine ⟨⟨by simpa [captureStep, noteObs, hy] using hl, ?_⟩,
          fun img hh => absurd hh (by simp [captureStep, hy])⟩
        simp only [captureStep, hy, if_false, noteObs, capInside]
        exact ⟨⟨hi, hv, rowInv_full hrow⟩, hp⟩
  | unlock f =>
    rcases d_mutex with _ | _ | _ <;> simp only [capOutside, and_false, false_and] at h
    obtain ⟨⟨hi, hv, himg⟩, hp⟩ := h
    refine ⟨⟨?_, ?_⟩, fun img hh => absurd hh (by simp [captureStep])⟩
    · intro g hg
      simp only [captureStep, noteObs, Option.some.injEq] at hg
      exact hg ▸ hv
    · simp only [captureStep, noteObs, capOutside, stored]
      exact ⟨himg, trivial, hp⟩
  | crashed =>
    rcases d_mutex with _ | _ | _ <;> simp only [capOutside, and_false, false_and] at h
    exact ⟨⟨by simpa [captureStep, noteObs] using hl, by simpa [captureStep, noteObs] using h⟩,
      fun img hh => absurd hh (by simp [captureStep])⟩

theorem sysStep_inv {last : Option Frame} {s : Sys} (m : SysMove) (hm : m.Ok)
    (h : SysInv last s) :
    SysInv (noteObs last (sysStep s m).2) (sysStep s m).1 ∧
    ∀ img, (sysStep s m).2 = SysObs.drew img → ∃ f, last = some f ∧ img = frameImage f := by
  cases m with
  | capture e al => exact captureStep_inv e al hm h
  | paint => exact paintStep_inv h

theorem sysTrace_drew :
    ∀ (ms : List SysMove) (last : Option Frame) (s : Sys), SysInv last s → (∀ m ∈ ms, m.Ok) →
      ∀ (i : Nat) (img : QImage), (sysTrace s ms)[i]? = some (SysObs.drew img) →
        ∃ f, ((sysTrace s ms).take i).foldl noteObs last = some f ∧ f.Valid ∧
          img = frameImage f
  | [], _, _, _, _, i, img, h => by simp [sysTrace] at h
  | m :: ms, last, s, hinv, hok, i, img, h => by
    obtain ⟨hinv', hdrew⟩ := sysStep_inv m (hok m (List.mem_cons_self _ _)) hinv
    cases i with
    | zero =>
      simp only [sysTrace, List.getElem?_cons_zero, Option.some.injEq] at h
      obtain ⟨f, hf, himg⟩ := hdrew img h
      exact ⟨f, by simpa using hf, hinv.1 f hf, himg⟩
    | succ i =>
      simp only [sysTrace, List.getElem?_cons_succ] at h
      have := sysTrace_drew ms _ _ hinv' (fun x hx => hok x (List.mem_cons_of_mem _ hx)) i img h
      simpa [sysTrace] using this

theorem sysStart_inv : SysInv none sysStart := by
  simp [SysInv, sysStart, stored, capOutside, paintOutside]

/-! ## The claims -/

/-- C1, counterexample: a 2x1 frame is published, then a valid 1x2 frame
arrives and the `QImage` constructor cannot obtain memory: the slot becomes a
null image, the row loop writes through the null `scanLine` pointer, and no
image with the last frame's dimensions is stored. -/
theorem latest_wins_fails_without_memory :
    (frameA.IsInt ∧ frameA.Valid) ∧ (frameB.IsInt ∧ frameB.Valid) ∧ initialImage.WF ∧
    publishAll [(true, frameB)] initialImage = some (frameImage frameB) ∧
    reallocIfNeeded false frameA (frameImage frameB) = QImage.null ∧
    publishAll ([(true, frameB)] ++ [(false, frameA)]) initialImage = none := by
  decide

/-- C1, amended: latest-wins when every allocation made succeeds.  After any
non-empty sequence of publishes of valid frames on any slot, in which each
`QImage` the publishes construct obtains its memory, the stored image has the
last frame's width and height, every byte of each of its rows is the last
frame's byte at the same row and column (source rows taken at the frame's
stride), the image is the one made of the last frame's rows alone, and this is
the image `paintEvent` draws. -/
theorem latest_wins (fs : List (Bool × Frame)) (a : Bool) (f : Frame) (d_image : QImage)
    (hw : d_image.WF) (hfs : ∀ g ∈ fs ++ [(a, f)], g.2.IsInt ∧ g.2.Valid)
    (hal : AllocsOk d_image.width d_image.height (fs ++ [(a, f)]))
    (scaled : QImage → QSize → QImage) (size : QSize) :
    ∃ img, publishAll (fs ++ [(a, f)]) d_image = some img ∧
      img.width = f.xres ∧ img.height = f.yres ∧
      (∀ y i : Nat, (y : Int) < f.yres → (i : Int) < f.xres * 4 →
        ∃ b, f.byteAt y i = some b ∧ img.byteAt y i = some b) ∧
      img = frameImage f ∧
      paintEvent scaled size img = (img, some (scaled img size)) := by
  have hv : f.Valid := (hfs (a, f) (by simp)).2
  obtain ⟨hwd, hht⟩ := frameImage_dims hv
  refine ⟨frameImage f, publishAll_valid fs a f d_image hw hfs hal, hwd, hht, ?_, rfl, ?_⟩
  · intro y i hy hi'
    exact frameImage_byteAt hv (by omega) (by omega)
  · simp [paintEvent, QImage.isNull, frameImage]

theorem latest_wins_witness :
    (∃ img, publishAll ([(true, frameA)] ++ [(true, frameB)]) initialImage = some img ∧
      img.width = frameB.xres ∧ img.height = frameB.yres ∧
      (∀ y i : Nat, (y : Int) < frameB.yres → (i : Int) < frameB.xres * 4 →
        ∃ b, frameB.byteAt y i = some b ∧ img.byteAt y i = some b) ∧
      img = frameImage frameB ∧
      paintEvent scaledId (640, 480) img = (img, some (scaledId img (640, 480)))) :=
  latest_wins [(true, frameA)] true frameB initialImage (by decide) (by decide) (by decide)
    scaledId (640, 480)

/-- C2: in the initial widget state `paintEvent` finds the stored image null
and draws nothing, for every viewport size; and as long as the capture loop
has handled no video event the stored image is still null and `paintEvent`
still draws nothing. -/
theorem snapshot_before_publish_is_empty (scaled : QImage → QSize → QImage) (size : QSize)
    (alloc : Nat → Bool) (events : List Event) (hnv : ∀ e ∈ events, e.isVideo = false) :
    initialImage.isNull = true ∧
    paintEvent scaled size initialImage = (initialImage, none) ∧
    ∃ o, captureLoop (stopAfter events.length) (pollFrom events) alloc (events.length + 1) 0
        initialImage [] = some o ∧
      o.exit = Exit.finished ∧ o.d_image = initialImage ∧
      paintEvent scaled size o.d_image = (initialImage, none) := by
  refine ⟨rfl, rfl, handleAll alloc 0 events initialImage [], captureLoop_events _ _ _ _, ?_⟩
  have h := handleAll_publishAll alloc events 0 initialImage []
  rw [videoFrames_no_video alloc events 0 hnv] at h
  simp only [publishAll] at h
  obtain ⟨h1, h2⟩ := h
  rw [h2]
  exact ⟨h1, rfl, rfl⟩

theorem snapshot_before_publish_is_empty_witness :
    initialImage.isNull = true ∧
    paintEvent scaledId (640, 480) initialImage = (initialImage, none) ∧
    ∃ o, captureLoop (stopAfter [Event.noData, Event.audio 48, Event.metadata].length)
        (pollFrom [Event.noData, Event.audio 48, Event.metadata]) (fun _ => true)
        ([Event.noData, Event.audio 48, Event.metadata].length + 1) 0
        initialImage [] = some o ∧
      o.exit = Exit.finished ∧ o.d_image = initialImage ∧
      paintEvent scaledId (640, 480) o.d_image = (initialImage, none) :=
  snapshot_before_publish_is_empty scaledId (640, 480) (fun _ => true)
    [Event.noData, Event.audio 48, Event.metadata] (by decide)

/-- C4, counterexample: a valid 1x2 frame arrives while the slot holds a 2x1
image and the `QImage` constructor cannot obtain memory: the slot becomes a
null image, `scanLine(0)` is the null pointer and the copy of row 0 goes
through it. -/
theorem publish_null_write_without_memory :
    frameA.IsInt ∧ frameA.Valid ∧ (frameImage frameB).WF ∧
    reallocIfNeeded false frameA (frameImage frameB) = QImage.null ∧
    (reallocIfNeeded false frameA (frameImage frameB)).scanLine 0 = none ∧
    copyRow frameA 0 0 (reallocIfNeeded false frameA (frameImage frameB)) = none ∧
    publish false frameA (frameImage frameB) = none := by
  decide

/-- C4, amended: publish is memory-safe under its contract when the
allocation it may make succeeds.  For a valid frame and any slot, if the frame
has the slot's dimensions or the `QImage` constructor obtains its memory, the
publish runs to its end without an out-of-bounds or null-pointer access; the
image the rows are written to has exactly `yres` rows of at least `xres * 4`
bytes inside its buffer; and every source range
`[y * stride, y * stride + xres * 4)` lies inside the pixel buffer. -/
theorem publish_memory_safe (alloc : Bool) (f : Frame) (d_image : QImage) (hi : f.IsInt)
    (hv : f.Valid) (hw : d_image.WF)
    (ha : alloc = true ∨ (f.xres = d_image.width ∧ f.yres = d_image.height)) :
    (∃ img, publish alloc f d_image = some img) ∧
    (∃ x, (reallocIfNeeded alloc f d_image).d = some x ∧ (x.height : Int) = f.yres ∧
      f.xres * 4 ≤ (x.bytes_per_line : Int) ∧ x.data.length = x.bytes_per_line * x.height ∧
      ∀ y : Nat, (y : Int) < f.yres →
        ∃ dest, (reallocIfNeeded alloc f d_image).scanLine y = some dest ∧
          dest + toSizeT (f.xres * 4) ≤ x.data.length) ∧
    (mulInt f.xres 4 = some (f.xres * 4)) ∧
    (∀ y : Nat, (y : Int) < f.yres →
      0 ≤ (y : Int) * f.line_stride_in_bytes ∧
      (y : Int) * f.line_stride_in_bytes + f.xres * 4 ≤ (f.p_data.length : Int)) := by
  refine ⟨⟨_, publish_eq hi hv hw ha⟩, ?_, ?_, ?_⟩
  · obtain ⟨data, he, hlen, _⟩ := realloc_inv hv hw ha
    obtain ⟨hx, hh, hs, hl⟩ := hv
    obtain ⟨_, _, _, hs31⟩ := hi
    refine ⟨_, by rw [he], ?_, ?_, ?_, ?_⟩
    · simp only; omega
    · simp only; omega
    · simp only [hlen]
    · intro y hy
      refine ⟨y * (4 * f.xres.toNat), ?_, ?_⟩
      · rw [he]; simp only [QImage.scanLine]; rw [if_pos]
        · simp
        · omega
      · have h1 : toSizeT (f.xres * 4) = 4 * f.xres.toNat := by unfold toSizeT; omega
        have h2 : 4 * f.xres.toNat * (y + 1) ≤ 4 * f.xres.toNat * f.yres.toNat :=
          Nat.mul_le_mul_left _ (by omega)
        have h3 : 4 * f.xres.toNat * (y + 1) = y * (4 * f.xres.toNat) + 4 * f.xres.toNat := by
          ring
        simp only [h1, hlen]; omega
  · obtain ⟨hx, hh, hs, hl⟩ := hv
    obtain ⟨_, _, _, hs31⟩ := hi
    unfold mulInt; rw [if_pos]; omega
  · intro y hy
    obtain ⟨h0, h1⟩ := stride_mul_le hv (y := y) (by omega)
    obtain ⟨hx, hh, hs, hl⟩ := hv
    exact ⟨h0, by omega⟩

theorem publish_memory_safe_witness :
    (∃ img, publish true frameA (frameImage frameB) = some img) ∧
    (∃ x, (reallocIfNeeded true frameA (frameImage frameB)).d = some x ∧
      (x.height : Int) = frameA.yres ∧
      frameA.xres * 4 ≤ (x.bytes_per_line : Int) ∧
      x.data.length = x.bytes_per_line * x.height ∧
      ∀ y : Nat, (y : Int) < frameA.yres →
        ∃ dest, (reallocIfNeeded true frameA (frameImage frameB)).scanLine y = some dest ∧
          dest + toSizeT (frameA.xres * 4) ≤ x.data.length) ∧
    (mulInt frameA.xres 4 = some (frameA.xres * 4)) ∧
    (∀ y : Nat, (y : Int) < frameA.yres →
      0 ≤ (y : Int) * frameA.line_stride_in_bytes ∧
      (y : Int) * frameA.line_stride_in_bytes + frameA.xres * 4
        ≤ (frameA.p_data.length : Int)) :=
  publish_memory_safe true frameA (frameImage frameB) (by decide) (by decide) (by decide)
    (Or.inl rfl)

/-- C7: `paintEvent` is read-only and idempotent.  For every slot and viewport
size it leaves the stored image as it was, so a second `paintEvent` with no
publish in between sees the same stored image and draws the same result. -/
theorem snapshot_read_only (scaled : QImage → QSize → QImage) (size : QSize)
    (d_image : QImage) :
    (paintEvent scaled size d_image).1 = d_image ∧
    paintEvent scaled size (paintEvent scaled size d_image).1
      = paintEvent scaled size d_image := by
  have h : (paintEvent scaled size d_image).1 = d_image := by
    unfold paintEvent; split <;> rfl
  exact ⟨h, by rw [h]⟩

/-- C9: the capture loop publishes exactly the video frames, in order.  When
the loop polls the events of a finite sequence and then reads the stop flag as
set, it returns, and its stored image is the one obtained by publishing the
sequence's video frames in arrival order (it fails exactly when one of those
publishes does), whatever the allocator answers; an event that is not a video
frame leaves the stored image unchanged. -/
theorem capture_loop_publishes_video_frames (alloc : Nat → Bool) (events : List Event)
    (d_image : QImage) (effects : List Effect) :
    (∃ o, captureLoop (stopAfter events.length) (pollFrom events) alloc (events.length + 1) 0
        d_image effects = some o ∧
      match publishAll (videoFrames alloc 0 events) d_image with
      | some r => o.exit = Exit.finished ∧ o.d_image = r
      | none => o.exit = Exit.crashed) ∧
    (∀ a, (handle a Event.noData d_image).1 = some d_image) ∧
    (∀ a n, (handle a (Event.audio n) d_image).1 = some d_image) ∧
    (∀ a, (handle a Event.metadata d_image).1 = some d_image) ∧
    (∀ a, (handle a Event.statusChange d_image).1 = some d_image) ∧
    (∀ a, (handle a Event.unknown d_image).1 = some d_image) :=
  ⟨⟨_, captureLoop_events alloc events d_image effects,
      handleAll_publishAll alloc events 0 d_image effects⟩,
    fun _ => rfl, fun _ _ => rfl, fun _ => rfl, fun _ => rfl, fun _ => rfl⟩

/-- C8, counterexample: receiver creation fails and `work` returns without a
single call to `printf` (its list of effects is empty): the failure is not
logged. -/
theorem connection_failure_not_logged :
    work envNoReceiver 2 initialImage = some ⟨Exit.noReceiver, initialImage, []⟩ := by
  decide

/-- C8, amended: each early exit returns with nothing published.  When the
library start-up fails `work` prints its one message and returns; when the
finder cannot be created it returns silently; when the discovery loop has
ended with a null source list it returns silently; when the discovery loop has
ended with a source and the receiver cannot be created it returns silently.
In each case `work` does return, the capture loop is not entered, the stored
image is still the initial null image, and a later `paintEvent` draws
nothing. -/
theorem early_exit_publishes_nothing (env : Env) (fuel : Nat) :
    (env.lib_init = false →
      work env fuel initialImage
        = some ⟨Exit.initFailed, initialImage, [Effect.printCannotRun]⟩) ∧
    (env.lib_init = true → env.find_create = false →
      work env fuel initialImage = some ⟨Exit.noFinder, initialImage, []⟩) ∧
    (env.lib_init = true → env.find_create = true →
      ∀ n, discover env.exit_loop env.current_sources fuel 0 (none, 0) = some (none, n) →
        work env fuel initialImage = some ⟨Exit.noSources, initialImage, []⟩) ∧
    (env.lib_init = true → env.find_create = true →
      ∀ src rest n,
        discover env.exit_loop env.current_sources fuel 0 (none, 0)
          = some (some (src :: rest), n) →
        env.recv_create = false →
        work env fuel initialImage = some ⟨Exit.noReceiver, initialImage, []⟩) ∧
    (∀ (scaled : QImage → QSize → QImage) (size : QSize),
      paintEvent scaled size initialImage = (initialImage, none)) := by
  refine ⟨?_, ?_, ?_, ?_, fun _ _ => rfl⟩
  · intro h1
    simp [work, h1]
  · intro h1 h2
    simp [work, h1, h2]
  · intro h1 h2 n hd
    simp [work, h1, h2, hd]
  · intro h1 h2 src rest n hd h3
    simp [work, h1, h2, hd, h3]

theorem early_exit_publishes_nothing_witness :
    work envNoLibrary 0 initialImage
      = some ⟨Exit.initFailed, initialImage, [Effect.printCannotRun]⟩ ∧
    work envNoFinder 0 initialImage = some ⟨Exit.noFinder, initialImage, []⟩ ∧
    work envNoSourceList 2 initialImage = some ⟨Exit.noSources, initialImage, []⟩ ∧
    work envNoReceiver 2 initialImage = some ⟨Exit.noReceiver, initialImage, []⟩ :=
  ⟨(early_exit_publishes_nothing envNoLibrary 0).1 rfl,
   (early_exit_publishes_nothing envNoFinder 0).2.1 rfl rfl,
   (early_exit_publishes_nothing envNoSourceList 2).2.2.1 rfl rfl 1 (by decide),
   (early_exit_publishes_nothing envNoReceiver 2).2.2.2.1 rfl rfl "camera" [] 1 (by decide) rfl⟩

/-- C6, the code at the failing input: with no source ever found and
`exit_loop` never raised, `work` has not returned after any number of
discovery iterations although `d_stop` reads `true` throughout: the discovery
loop never reads the destructor's stop flag.  The capture loop, given the same
flag, returns at its first test. -/
theorem discovery_ignores_stop_flag (fuel : Nat) :
    envStoppedNoSource.d_stop 0 = true ∧
    work envStoppedNoSource fuel initialImage = none ∧
    discover envStoppedNoSource.exit_loop envStoppedNoSource.current_sources fuel 0 (none, 0)
      = none ∧
    captureLoop envStoppedNoSource.d_stop envStoppedNoSource.recv_capture
        envStoppedNoSource.alloc 1 0 initialImage []
      = some ⟨Exit.finished, initialImage, [Effect.recvDestroy, Effect.ndiDestroy]⟩ := by
  have h := discover_no_source envStoppedNoSource.exit_loop envStoppedNoSource.current_sources
    (fun _ => rfl) (fun _ => rfl) fuel 0 (none, 0) rfl
  refine ⟨rfl, ?_, h, rfl⟩
  unfold work
  rw [h]
  rfl

/-- C5, counterexample: the loop tests `d_stop` (not set), the destructor
sets it while the loop waits in the poll, the poll returns a video frame and
the loop publishes it: one write of the stored image after the flag was set,
which leaves that frame in the slot. -/
theorem publish_after_stop_flag :
    loopTrace (loopStart initialImage) stopDuringPoll
      = [LoopObs.tested false, LoopObs.setStop, LoopObs.polled, LoopObs.wroteImage] ∧
    writesAfterStop (loopTrace (loopStart initialImage) stopDuringPoll) = 1 ∧
    (loopRun (loopStart initialImage) stopDuringPoll).d_image = frameImage frameA := by
  decide

/-- C5, amended: in every interleaving of the capture loop with the
destructor, at most one step writes the stored image after the step that set
the stop flag (the publish of the poll that was in flight), and no step writes
it after a loop test has read the flag as set. -/
theorem at_most_one_publish_after_stop (d_image : QImage) (ms : List LoopMove) :
    writesAfterStop (loopTrace (loopStart d_image) ms) ≤ 1 ∧
    writesAfterSeenStop (loopTrace (loopStart d_image) ms) = 0 :=
  ⟨writesAfterStop_le_one ms _, writesAfterSeenStop_zero ms _⟩

/-- C3: no torn image.  In every interleaving of the steps of the capture
thread (poll, lock, dimension check with reallocation, one step per row copy,
unlock) with the steps of the paint thread (lock, null check, scale and draw,
unlock), where the delivered video frames satisfy the contract of publish,
every image the paint thread reads for drawing is the image of the frame of
the latest publish completed before that step: it has that frame's dimensions
and each of its bytes is that frame's byte, so it is never a mixture of two
publishes nor a buffer with cells still unwritten.  This holds whatever the
allocator answers. -/
theorem no_torn_image (ms : List SysMove) (hok : ∀ m ∈ ms, m.Ok) (i : Nat) (img : QImage)
    (h : (sysTrace sysStart ms)[i]? = some (SysObs.drew img)) :
    ∃ f, lastPublished ((sysTrace sysStart ms).take i) = some f ∧
      img = frameImage f ∧
      img.isNull = false ∧ img.width = f.xres ∧ img.height = f.yres ∧
      ∀ y c : Nat, (y : Int) < f.yres → (c : Int) < f.xres * 4 →
        ∃ b, f.byteAt y c = some b ∧ img.byteAt y c = some b := by
  obtain ⟨f, hf, hv, himg⟩ := sysTrace_drew ms none sysStart sysStart_inv hok i img h
  subst himg
  obtain ⟨hwd, hht⟩ := frameImage_dims hv
  refine ⟨f, hf, rfl, rfl, hwd, hht, ?_⟩
  intro y c hy hc
  exact frameImage_byteAt hv (by omega) (by omega)

theorem no_torn_image_witness :
    ∃ f, lastPublished ((sysTrace sysStart scheduleA).take 22) = some f ∧
      frameImage frameB = frameImage f ∧
      (frameImage frameB).isNull = false ∧ (frameImage frameB).width = f.xres ∧
      (frameImage frameB).height = f.yres ∧
      ∀ y c : Nat, (y : Int) < f.yres → (c : Int) < f.xres * 4 →
        ∃ b, f.byteAt y c = some b ∧ (frameImage frameB).byteAt y c = some b :=
  no_torn_image scheduleA (by decide) 22 (frameImage frameB) (by decide)

end Viewer
